import Mathlib

/-!
Verification of the bank-statement report pipeline in `src/bank.py`.

The pipeline is shallowly embedded: table cells extracted from the PDF are
`Cell := Option String` (pdfplumber yields a string or `None` per cell),
Python values reaching `clean_amount`/`categorize` are `PyVal`, currency
amounts are modelled as rationals (`ℚ`), a raised Python exception is `none`
in an `Option` result, and pandas' `NaT` is `none : Option BankDate`.
-/

/-- Models Python `str.strip`'s whitespace set (space, tab, newline, CR, VT, FF). -/
def pyIsSpace (c : Char) : Bool :=
  c == ' ' || c == '\t' || c == '\n' || c == '\r' || c == '\x0b' || c == '\x0c'

/-- Models Python `str.strip()` on the character list of a string. -/
def pyStripL (l : List Char) : List Char :=
  ((l.dropWhile pyIsSpace).reverse.dropWhile pyIsSpace).reverse

/-- Models Python `str.replace(",", "")`: every comma is removed. -/
def stripCommasL (l : List Char) : List Char :=
  l.filter (fun c => !(c == ','))

/-- Numeric value of a list of decimal digit characters. -/
def digitsToNat (l : List Char) : ℕ :=
  l.foldl (fun n c => 10 * n + (c.toNat - 48)) 0

/-- Models Python `str.lower()` (ASCII letters, which is all the source uses). -/
def pyLower (s : String) : String :=
  ⟨s.data.map Char.toLower⟩

/-- Models Python's substring test `needle in hay`. -/
def containsSub (needle hay : String) : Bool :=
  hay.data.tails.any (fun t => needle.data.isPrefixOf t)

/-- The Python values the source passes to `clean_amount` and `categorize`:
`None`, strings, and (for totality arguments) integers. -/
inductive PyVal where
  | pynone
  | pystr (s : String)
  | pyint (n : ℤ)
deriving DecidableEq

/-- Models Python `str(x)` on `PyVal` (`str(None) = "None"`). -/
def pyStr : PyVal → String
  | .pynone => "None"
  | .pystr s => s
  | .pyint n => toString n

/-- A table cell as produced by `pdfplumber.extract_table`: a string or `None`. -/
abbrev Cell := Option String

/-- The Python value stored in a cell. -/
def cellVal : Cell → PyVal
  | none => .pynone
  | some s => .pystr s

/-- Scale a parsed mantissa by a base-10 exponent. -/
def applyExp (q : ℚ) (e : ℤ) : ℚ :=
  if 0 ≤ e then q * 10 ^ e.toNat else q / 10 ^ (-e).toNat

/-- Parses the `[sign]digits` exponent part of a float literal. -/
def parseExpPart (l : List Char) : Option ℤ :=
  match l with
  | '+' :: ds => if !ds.isEmpty && ds.all Char.isDigit then some (digitsToNat ds : ℤ) else none
  | '-' :: ds => if !ds.isEmpty && ds.all Char.isDigit then some (-(digitsToNat ds : ℤ)) else none
  | ds => if !ds.isEmpty && ds.all Char.isDigit then some (digitsToNat ds : ℤ) else none

/-- Value of `digits "." digits` as a rational. -/
def mantVal (ip fp : List Char) : ℚ :=
  (digitsToNat ip : ℚ) + (digitsToNat fp : ℚ) / 10 ^ fp.length

/-- Unsigned part of Python float text: `digits [. digits] [exp]` or `. digits [exp]`. -/
def pyFloatCore (l : List Char) : Option ℚ :=
  let ip := l.takeWhile Char.isDigit
  let r1 := l.drop ip.length
  match r1 with
  | [] => if ip.isEmpty then none else some (digitsToNat ip : ℚ)
  | '.' :: r2 =>
    let fp := r2.takeWhile Char.isDigit
    let r3 := r2.drop fp.length
    if ip.isEmpty && fp.isEmpty then none
    else
      match r3 with
      | [] => some (mantVal ip fp)
      | c :: r4 =>
        if c == 'e' || c == 'E' then (parseExpPart r4).map (applyExp (mantVal ip fp))
        else none
  | c :: r4 =>
    if (c == 'e' || c == 'E') && !ip.isEmpty then
      (parseExpPart r4).map (applyExp (digitsToNat ip : ℚ))
    else none

/-- Models Python `float(str)` on finite decimal notation: surrounding whitespace,
an optional sign, then digits with an optional fractional part and exponent.
(The `inf`/`nan` spellings and digit-group underscores accepted by Python do not
occur in bank-statement cells and are outside the model; `none` models a raised
`ValueError`.) -/
def pyFloatL (l : List Char) : Option ℚ :=
  match pyStripL l with
  | '+' :: r => pyFloatCore r
  | '-' :: r => (pyFloatCore r).map (fun q => -q)
  | r => pyFloatCore r

/-- Embeds `clean_amount` (src/bank.py lines 15-19).  The Python function first
takes `str(x)`, removes commas and strips whitespace; a value wrapped in
parentheses parses the interior and negates it; otherwise a non-empty string
different from `"None"` is parsed by `float`, and everything else is `0.0`.
`none` models a raised `ValueError`. -/
def clean_amount (x : PyVal) : Option ℚ :=
  let y := pyStripL (stripCommasL (pyStr x).data)
  if y.head? = some '(' ∧ y.getLast? = some ')' then
    (pyFloatL ((y.drop 1).dropLast)).map (fun q => -q)
  else if y ≠ [] ∧ y ≠ "None".data then pyFloatL y
  else some 0

/-- The amount-coercion rule exactly as the spec words it (§4.2): strip
thousands separators and surrounding whitespace; a value wrapped in parentheses
denotes a negative number (parse the interior and negate); an empty or
null-marker string normalizes to zero; otherwise parse as a decimal number.
Stated for comparison with the source's `clean_amount`. -/
def cleanAmountSpec (x : String) : Option ℚ :=
  let y := pyStripL (stripCommasL x.data)
  if y.head? = some '(' ∧ y.getLast? = some ')' then
    (pyFloatL ((y.drop 1).dropLast)).map (fun q => -q)
  else if y = [] ∨ y = "None".data then some 0
  else pyFloatL y

/-- A calendar date as pandas parses it. -/
structure BankDate where
  year : ℕ
  month : ℕ
  day : ℕ
deriving DecidableEq

/-- Models `pd.to_datetime(cell, dayfirst=True, errors="coerce")` on the
slash-separated day-first format `D/M/YYYY` the statement uses; any other text
coerces to `NaT`, i.e. `none`. -/
def parseDate (s : String) : Option BankDate :=
  match (pyStripL s.data).splitOn '/' with
  | [d, m, y] =>
    if d ≠ [] ∧ d.all Char.isDigit ∧ d.length ≤ 2 ∧
        m ≠ [] ∧ m.all Char.isDigit ∧ m.length ≤ 2 ∧
        y.length = 4 ∧ y.all Char.isDigit then
      let dv := digitsToNat d
      let mv := digitsToNat m
      if 1 ≤ dv ∧ dv ≤ 31 ∧ 1 ≤ mv ∧ mv ≤ 12 then
        some ⟨digitsToNat y, mv, dv⟩
      else none
    else none
  | _ => none

/-- Embeds the extraction loop (src/bank.py lines 22-37): for each page take its
table (`[]` models both a missing and an empty table, which `if not table`
skips), drop the header row, and keep only rows with at least 9 cells. -/
def extractRows : List (List (List Cell)) → List (List Cell)
  | [] => []
  | table :: pages =>
    (if table.isEmpty then [] else (table.drop 1).filter (fun r => 9 ≤ r.length)) ++
      extractRows pages

/-- The dict appended to `rows` for one kept table row (src/bank.py lines 31-37). -/
structure RawRec where
  date : Cell
  particulars : Cell
  withdrawals : Cell
  deposits : Cell
  balance : Cell
deriving DecidableEq

/-- Fixed-position column mapping: date ← cell 0, particulars ← cell 2,
withdrawals ← cell 6, deposits ← cell 7, balance ← cell 8. -/
def toRawRec (r : List Cell) : RawRec :=
  ⟨r.getD 0 none, r.getD 2 none, r.getD 6 none, r.getD 7 none, r.getD 8 none⟩

/-- Rows of every page, mapped to records (the `rows.append({...})` loop). -/
def extractRecs (pages : List (List (List Cell))) : List RawRec :=
  (extractRows pages).map toRawRec

/-- One row of the cleaned DataFrame (src/bank.py lines 41-49): amounts passed
through `clean_amount`, the date column through `pd.to_datetime(errors="coerce")`. -/
structure Txn where
  date : Option BankDate
  particulars : Cell
  withdrawals : ℚ
  deposits : ℚ
  balance : ℚ
deriving DecidableEq

/-- Cleans one record; `none` models `clean_amount` raising `ValueError`,
which aborts the whole report. -/
def cleanRec (r : RawRec) : Option Txn :=
  match clean_amount (cellVal r.withdrawals), clean_amount (cellVal r.deposits),
      clean_amount (cellVal r.balance) with
  | some w, some dep, some b =>
    some ⟨r.date.bind parseDate, r.particulars, w, dep, b⟩
  | _, _, _ => none

/-- Embeds the column-cleaning stage `df[...].apply(clean_amount)` plus date
coercion over the whole record list; any parse exception aborts everything. -/
def normalizeRecs : List RawRec → Option (List Txn)
  | [] => some []
  | r :: rs =>
    match cleanRec r, normalizeRecs rs with
    | some t, some ts => some (t :: ts)
    | _, _ => none

/-- Order-preserving numeric key of a date (lexicographic in year, month, day). -/
def dateKey (d : BankDate) : ℕ :=
  d.year * 10000 + d.month * 100 + d.day

/-- Comparison used by `df.sort_values("Date")`: dates ascending, `NaT` sorted
last (pandas default `na_position="last"`). -/
def keyLE : Option ℕ → Option ℕ → Bool
  | _, none => true
  | none, some _ => false
  | some a, some b => decide (a ≤ b)

/-- Sort key of a transaction: its date, `none` for `NaT`. -/
def tKey (t : Txn) : Option ℕ :=
  t.date.map dateKey

/-- The sort order of `df.sort_values("Date")`. -/
def txnLE (a b : Txn) : Prop :=
  keyLE (tKey a) (tKey b) = true

instance : DecidableRel txnLE :=
  fun a b => instDecidableEqBool (keyLE (tKey a) (tKey b)) true

/-- Embeds `df = df.sort_values("Date")`. -/
def sortTxns (ts : List Txn) : List Txn :=
  ts.insertionSort txnLE

/-- Embeds `total_debit = df["Withdrawals"].sum()`. -/
def totalDebit (ts : List Txn) : ℚ :=
  (ts.map Txn.withdrawals).sum

/-- Embeds `total_credit = df["Deposits"].sum()`. -/
def totalCredit (ts : List Txn) : ℚ :=
  (ts.map Txn.deposits).sum

/-- Embeds `net_cash = total_credit - total_debit`. -/
def netCash (ts : List Txn) : ℚ :=
  totalCredit ts - totalDebit ts

/-- The twelve English month names used by `strftime("%B %Y")`. -/
def monthName (m : ℕ) : String :=
  ["January", "February", "March", "April", "May", "June", "July",
   "August", "September", "October", "November", "December"].getD (m - 1) ""

/-- Embeds `df["Date"].dt.strftime("%B %Y")` for a parsed date (the years
`parseDate` produces have four digits, so `%Y` is plain decimal). -/
def monthLabel (d : BankDate) : String :=
  monthName d.month ++ " " ++ toString d.year

/-- The `Month` column: `strftime` of a `NaT` date is the null value `none`. -/
def monthOf (t : Txn) : Option String :=
  t.date.map monthLabel

/-- Code-point lexicographic order on strings, as pandas sorts group keys. -/
def lexLE : List Char → List Char → Bool
  | [], _ => true
  | _ :: _, [] => false
  | a :: as, b :: bs =>
    if a.toNat < b.toNat then true
    else if b.toNat < a.toNat then false
    else lexLE as bs

/-- String order used for the groupby key index. -/
def strLE (a b : String) : Prop :=
  lexLE a.data b.data = true

instance : DecidableRel strLE :=
  fun a b => instDecidableEqBool (lexLE a.data b.data) true

/-- The group keys of `df.groupby("Month")`: the distinct non-null `Month`
values, sorted (pandas sorts group keys); rows whose key is the null value are
dropped (pandas default `dropna=True`). -/
def monthKeys (ts : List Txn) : List String :=
  ((ts.filterMap monthOf).dedup).insertionSort strLE

/-- Withdrawal total of one month group. -/
def monthlyW (ts : List Txn) (mo : String) : ℚ :=
  ((ts.filter (fun t => monthOf t = some mo)).map Txn.withdrawals).sum

/-- Deposit total of one month group. -/
def monthlyD (ts : List Txn) (mo : String) : ℚ :=
  ((ts.filter (fun t => monthOf t = some mo)).map Txn.deposits).sum

/-- Embeds `monthly = df.groupby("Month")[["Withdrawals", "Deposits"]].sum()`. -/
def monthlySummary (ts : List Txn) : List (String × ℚ × ℚ) :=
  (monthKeys ts).map (fun mo => (mo, monthlyW ts mo, monthlyD ts mo))

/-- Whether a transaction's date parsed. -/
def hasDate (t : Txn) : Bool :=
  t.date.isSome

/-- Embeds `categorize` (src/bank.py lines 96-103): lowercase `str(desc)` and
test the keyword rules in source order. -/
def categorize (desc : PyVal) : String :=
  let d := pyLower (pyStr desc)
  if containsSub "loan" d then "Loan"
  else if containsSub "salary" d then "Salary"
  else if containsSub "neft" d then "NEFT"
  else if containsSub "upi" d then "UPI"
  else if containsSub "transfer" d || containsSub "tfr" d then "Transfer"
  else "Others"

/-- The classifier rule table exactly as §4.3 of the spec orders it. -/
def specRules : List (List String × String) :=
  [(["loan"], "Loan"), (["salary"], "Salary"), (["neft"], "NEFT"),
   (["upi"], "UPI"), (["transfer", "tfr"], "Transfer")]

/-- The classifier as the spec words it: case-insensitive substring search,
ordered rules, first match wins, default `"Others"`.  Stated for comparison
with the source's `categorize`. -/
def categorizeSpec (desc : String) : String :=
  let d := pyLower desc
  match specRules.find? (fun rule => rule.1.any (fun kw => containsSub kw d)) with
  | some rule => rule.2
  | none => "Others"

/-- First data row of the spec's end-to-end scenario (§8). -/
def row1 : List Cell :=
  [some "01/02/2023", some "", some "Salary Credit", some "", some "", some "",
   some "0", some "50,000.00", some "50,000.00"]

/-- Second data row of the spec's end-to-end scenario (§8). -/
def row2 : List Cell :=
  [some "05/02/2023", some "", some "Loan EMI", some "", some "", some "",
   some "(5,000.00)", some "0", some "45,000.00"]

/-- The two branch structures of `clean_amount` and of the spec's wording agree
on every already-stripped character list. -/
theorem cleanText_cases (y : List Char) :
    (if y.head? = some '(' ∧ y.getLast? = some ')' then
        (pyFloatL ((y.drop 1).dropLast)).map (fun q => -q)
      else if y ≠ [] ∧ y ≠ "None".data then pyFloatL y
      else some 0) =
      (if y.head? = some '(' ∧ y.getLast? = some ')' then
        (pyFloatL ((y.drop 1).dropLast)).map (fun q => -q)
      else if y = [] ∨ y = "None".data then some 0
      else pyFloatL y) := by
  by_cases h1 : y.head? = some '(' ∧ y.getLast? = some ')'
  · rw [if_pos h1, if_pos h1]
  · by_cases h2 : y = [] ∨ y = "None".data
    · have h3 : ¬(y ≠ [] ∧ y ≠ "None".data) := by tauto
      rw [if_neg h1, if_neg h1, if_pos h2, if_neg h3]
    · have h3 : y ≠ [] ∧ y ≠ "None".data := by tauto
      rw [if_neg h1, if_neg h1, if_neg h2, if_pos h3]

/-- Claim C1: for every input string, `clean_amount` strips commas and
surrounding whitespace, negates a parenthesized interior, maps the empty and
`"None"` strings to `0.0`, and otherwise parses a decimal number; in
particular on the four quoted examples. -/
theorem clean_amount_matches_spec :
    (∀ x : String, clean_amount (.pystr x) = cleanAmountSpec x) ∧
    clean_amount (.pystr "(1,234.50)") = some (-(2469 / 2)) ∧
    clean_amount (.pystr "1,234.50") = some (2469 / 2) ∧
    clean_amount (.pystr "") = some 0 ∧
    clean_amount (.pystr "None") = some 0 := by
  refine ⟨fun x => ?_, by with_unfolding_all rfl, by with_unfolding_all rfl,
    by with_unfolding_all rfl, by with_unfolding_all rfl⟩
  show clean_amount (.pystr x) = cleanAmountSpec x
  unfold clean_amount cleanAmountSpec pyStr
  exact cleanText_cases (pyStripL (stripCommasL x.data))

/-- Claim C4: `categorize` is the spec's ordered, case-insensitive,
first-match-wins keyword classifier, as shown both in general against the
spec's rule table and on the three quoted examples. -/
theorem categorize_matches_spec :
    (∀ s : String, categorize (.pystr s) = categorizeSpec s) ∧
    categorize (.pystr "Salary Transfer to XYZ") = "Salary" ∧
    categorize (.pystr "NEFT UPI payment") = "NEFT" ∧
    categorize (.pystr "Grocery store") = "Others" := by
  refine ⟨fun s => ?_, by with_unfolding_all rfl, by with_unfolding_all rfl,
    by with_unfolding_all rfl⟩
  unfold categorize categorizeSpec specRules pyStr
  cases h1 : containsSub "loan" (pyLower s) <;>
    cases h2 : containsSub "salary" (pyLower s) <;>
      cases h3 : containsSub "neft" (pyLower s) <;>
        cases h4 : containsSub "upi" (pyLower s) <;>
          cases h5 : containsSub "transfer" (pyLower s) <;>
            cases h6 : containsSub "tfr" (pyLower s) <;>
              simp [List.find?, h1, h2, h3, h4, h5, h6]

/-- Claim C10: `categorize` is total over arbitrary Python values: it goes
through `str(...)` and `.lower()` and always returns one of the six labels;
in particular `categorize(None) = "Others"`. -/
theorem categorize_total :
    (∀ v : PyVal, categorize v ∈ ["Loan", "Salary", "NEFT", "UPI", "Transfer", "Others"]) ∧
    categorize .pynone = "Others" := by
  refine ⟨fun v => ?_, by with_unfolding_all rfl⟩
  unfold categorize
  cases h1 : containsSub "loan" (pyLower (pyStr v)) <;>
    cases h2 : containsSub "salary" (pyLower (pyStr v)) <;>
      cases h3 : containsSub "neft" (pyLower (pyStr v)) <;>
        cases h4 : containsSub "upi" (pyLower (pyStr v)) <;>
          cases h5 : containsSub "transfer" (pyLower (pyStr v)) <;>
            cases h6 : containsSub "tfr" (pyLower (pyStr v)) <;>
              simp [h1, h2, h3, h4, h5, h6]

/-- Claim C7: a non-empty amount string that is not the null marker and is
valid neither as plain numeric nor as parenthesized accounting notation makes
`clean_amount` raise (modelled as `none`) instead of returning a value, and in
particular it never turns such input into `0.0`. -/
theorem clean_amount_error_on_invalid (x : String) (y : List Char)
    (hy : y = pyStripL (stripCommasL x.data))
    (h1 : y ≠ []) (h2 : y ≠ "None".data)
    (h3 : y.head? = some '(' ∧ y.getLast? = some ')' →
      pyFloatL ((y.drop 1).dropLast) = none)
    (h4 : ¬(y.head? = some '(' ∧ y.getLast? = some ')') → pyFloatL y = none) :
    clean_amount (.pystr x) = none ∧ clean_amount (.pystr x) ≠ some 0 := by
  have hmain : clean_amount (.pystr x) = none := by
    unfold clean_amount pyStr
    rw [← hy]
    by_cases hp : y.head? = some '(' ∧ y.getLast? = some ')'
    · rw [if_pos hp, h3 hp]
      rfl
    · rw [if_neg hp, if_pos ⟨h1, h2⟩, h4 hp]
  exact ⟨hmain, by rw [hmain]; exact fun h => Option.noConfusion h⟩

/-- Claim C7 witness: the concrete malformed amount `"abc"`. -/
theorem clean_amount_error_on_invalid_witness :
    clean_amount (.pystr "abc") = none ∧ clean_amount (.pystr "abc") ≠ some 0 :=
  clean_amount_error_on_invalid "abc" (pyStripL (stripCommasL "abc".data)) rfl
    (by decide) (by decide) (by decide) (by decide)

/-- Claim C2 (failing input): on the scenario's ninth-cell-complete `Loan EMI`
row, whose withdrawal cell is the accounting-notation `"(5,000.00)"`, the
normalizer stores the negative amount `-5000.00` as the withdrawal, violating
the non-negativity invariant. -/
theorem withdrawal_negative_on_scenario_row :
    (cleanRec (toRawRec row2)).map (fun t => (t.withdrawals, t.deposits)) =
      some (-5000, 0) ∧
    row2.length = 9 ∧
    ¬(0 ≤ (-5000 : ℚ)) := by
  refine ⟨by with_unfolding_all rfl, by with_unfolding_all rfl, by with_unfolding_all decide⟩

/-- Claim C3 (failing input): the full pipeline on the spec's two scenario rows
yields withdrawals `[0, -5000]` (not `[0, 5000]`), a February 2023 monthly
entry of `(-5000, 50000)` (not `(5000, 50000)`) and net cash flow `55000`
(not `45000`); the categories and deposits match the claim. -/
theorem scenario_pipeline_divergence :
    (normalizeRecs [toRawRec row1, toRawRec row2]).map
        (fun ts =>
          ((sortTxns ts).map Txn.withdrawals,
           (sortTxns ts).map Txn.deposits,
           (sortTxns ts).map (fun t => categorize (cellVal t.particulars)),
           monthlySummary (sortTxns ts),
           netCash (sortTxns ts))) =
      some ([0, -5000], [50000, 0], ["Salary", "Loan"],
        [("February 2023", -5000, 50000)], 55000) ∧
    (-5000 : ℚ) ≠ 5000 ∧ (55000 : ℚ) ≠ 45000 := by
  refine ⟨by with_unfolding_all rfl, by with_unfolding_all decide,
    by with_unfolding_all decide⟩

/-- Claim C8: every row kept by extraction has at least 9 cells and comes from
a data row (never the header row) of some page's table; conversely every data
row with at least 9 cells is kept, so short rows are skipped silently without
aborting extraction. -/
theorem extractRows_data_rows :
    (∀ (pages : List (List (List Cell))) (r : List Cell),
        r ∈ extractRows pages → 9 ≤ r.length ∧ ∃ t ∈ pages, r ∈ t.drop 1) ∧
    (∀ (pages : List (List (List Cell))) (t : List (List Cell)) (r : List Cell),
        t ∈ pages → r ∈ t.drop 1 → 9 ≤ r.length → r ∈ extractRows pages) := by
  constructor
  · intro pages
    induction pages with
    | nil => intro r hr; exact absurd hr (List.not_mem_nil r)
    | cons table pages ih =>
      intro r hr
      simp only [extractRows] at hr
      rcases List.mem_append.mp hr with hl | hrr
      · by_cases he : table.isEmpty
        · rw [if_pos he] at hl
          exact absurd hl (List.not_mem_nil r)
        · rw [if_neg he] at hl
          have hf := List.mem_filter.mp hl
          exact ⟨by simpa using hf.2, table, List.mem_cons_self table pages, hf.1⟩
      · obtain ⟨h9, t, ht, hrt⟩ := ih r hrr
        exact ⟨h9, t, List.mem_cons_of_mem table ht, hrt⟩
  · intro pages
    induction pages with
    | nil => intro t r ht; exact absurd ht (List.not_mem_nil t)
    | cons table pages ih =>
      intro t r ht hr h9
      simp only [extractRows]
      rcases List.mem_cons.mp ht with he | hts
      · subst he
        apply List.mem_append_left
        have hne : ¬t.isEmpty = true := by
          intro hemp
          rw [List.isEmpty_iff] at hemp
          rw [hemp] at hr
          simp at hr
        rw [if_neg hne]
        exact List.mem_filter.mpr ⟨hr, by simpa using h9⟩
      · exact List.mem_append_right _ (ih t r hts hr h9)

/-- A three-row table exercising header exclusion and short-row skipping. -/
def tableW : List (List Cell) :=
  [[some "h"], row1, [some "x"]]

/-- Claim C8 witness: on the one-page document `[tableW]` the 9-cell data row
`row1` is kept while the header and the 1-cell row are not. -/
theorem extractRows_data_rows_witness :
    (9 ≤ row1.length ∧ ∃ t ∈ [tableW], row1 ∈ t.drop 1) ∧
      row1 ∈ extractRows [tableW] :=
  ⟨extractRows_data_rows.1 [tableW] row1 (by decide),
   extractRows_data_rows.2 [tableW] tableW row1 (by decide) (by decide) (by decide)⟩

/-- A transaction's date is unparsed exactly when `hasDate` is `false`. -/
theorem hasDate_false_iff (t : Txn) : hasDate t = false ↔ t.date = none := by
  unfold hasDate
  cases t.date <;> simp

/-- A `NaT` date has no sort key. -/
theorem tKey_eq_none (t : Txn) (h : t.date = none) : tKey t = none := by
  unfold tKey
  rw [h]
  rfl

/-- The sort-key comparison is total. -/
theorem keyLE_total (a b : Option ℕ) : keyLE a b = true ∨ keyLE b a = true := by
  cases a <;> cases b <;> simp [keyLE]
  omega

/-- The sort-key comparison is transitive. -/
theorem keyLE_trans {a b c : Option ℕ} (h1 : keyLE a b = true) (h2 : keyLE b c = true) :
    keyLE a c = true := by
  cases a <;> cases b <;> cases c <;> simp_all [keyLE]
  omega

instance : IsTotal Txn txnLE :=
  ⟨fun a b => keyLE_total (tKey a) (tKey b)⟩

instance : IsTrans Txn txnLE :=
  ⟨fun _ _ _ h1 h2 => keyLE_trans h1 h2⟩

/-- In a list sorted by the date order, the dated records form the front and
the unknown-date records form the tail. -/
theorem sorted_split_unknown_last :
    ∀ l : List Txn, List.Sorted txnLE l →
      l = l.filter hasDate ++ l.filter (fun t => !hasDate t)
  | [], _ => rfl
  | t :: l, h => by
    rw [List.sorted_cons] at h
    obtain ⟨hrel, hsort⟩ := h
    have ih := sorted_split_unknown_last l hsort
    cases hd : hasDate t
    · have hall : ∀ s ∈ l, hasDate s = false := by
        intro s hsl
        have h1 := hrel s hsl
        rw [hasDate_false_iff] at hd
        unfold txnLE at h1
        rw [tKey_eq_none t hd] at h1
        rw [hasDate_false_iff]
        cases hks : tKey s with
        | none =>
          unfold tKey at hks
          exact Option.map_eq_none'.mp hks
        | some k =>
          rw [hks] at h1
          simp [keyLE] at h1
      have hf1 : l.filter hasDate = [] := by
        rw [List.filter_eq_nil_iff]
        intro s hs
        simp [hall s hs]
      have hf2 : l.filter (fun t => !hasDate t) = l := by
        rw [List.filter_eq_self]
        intro s hs
        simp [hall s hs]
      simp [List.filter_cons, hd, hf1, hf2]
    · rw [List.filter_cons, List.filter_cons, hd]
      simp only [Bool.not_true, ite_true, ite_false]
      rw [List.cons_append]
      exact congrArg (t :: ·) ih

/-- Claim C9: `df.sort_values("Date")` keeps every record (permutation),
orders them non-decreasing by date, and places all unknown-date records
together after every dated record (pandas' `na_position="last"`). -/
theorem sortTxns_orders_by_date (ts : List Txn) :
    (sortTxns ts).Perm ts ∧ List.Sorted txnLE (sortTxns ts) ∧
    sortTxns ts =
      (sortTxns ts).filter hasDate ++ (sortTxns ts).filter (fun t => !hasDate t) :=
  ⟨List.perm_insertionSort txnLE ts, List.sorted_insertionSort txnLE ts,
   sorted_split_unknown_last _ (List.sorted_insertionSort txnLE ts)⟩

/-- A record's month key is non-null exactly when its date parsed. -/
theorem monthOf_isSome_eq_hasDate (t : Txn) : (monthOf t).isSome = hasDate t := by
  unfold monthOf hasDate
  cases t.date <;> rfl

/-- Keeping only dated records leaves the month-key list unchanged. -/
theorem filterMap_monthOf_filter_hasDate (ts : List Txn) :
    (ts.filter hasDate).filterMap monthOf = ts.filterMap monthOf := by
  induction ts with
  | nil => rfl
  | cons t ts ih =>
    cases hdd : t.date with
    | none =>
      have hd : hasDate t = false := by unfold hasDate; rw [hdd]; rfl
      have hmo : monthOf t = none := by unfold monthOf; rw [hdd]; rfl
      simp [List.filter_cons, List.filterMap_cons, hd, hmo, ih]
    | some d =>
      have hd : hasDate t = true := by unfold hasDate; rw [hdd]; rfl
      have hmo : monthOf t = some (monthLabel d) := by unfold monthOf; rw [hdd]; rfl
      simp [List.filter_cons, List.filterMap_cons, hd, hmo, ih]

/-- The month-group filter commutes with the dated-records filter. -/
theorem filter_month_of_filter_hasDate (ts : List Txn) (mo : String) :
    (ts.filter hasDate).filter (fun s => monthOf s = some mo) =
      ts.filter (fun s => monthOf s = some mo) := by
  induction ts with
  | nil => rfl
  | cons t ts ih =>
    cases hdd : t.date with
    | none =>
      have hd : hasDate t = false := by unfold hasDate; rw [hdd]; rfl
      have hmo : monthOf t = none := by unfold monthOf; rw [hdd]; rfl
      simp [List.filter_cons, hd, hmo, ih]
    | some d =>
      have hd : hasDate t = true := by unfold hasDate; rw [hdd]; rfl
      by_cases hmo : monthOf t = some mo <;>
        simp [List.filter_cons, hd, hmo, ih]

/-- A map-sum splits along a Boolean partition of the record list. -/
theorem sum_filter_split (w : Txn → ℚ) (p : Txn → Bool) (ts : List Txn) :
    (ts.map w).sum =
      ((ts.filter p).map w).sum + ((ts.filter (fun t => !p t)).map w).sum := by
  induction ts with
  | nil => simp
  | cons t ts ih =>
    cases hp : p t <;> simp [List.filter_cons, hp, ih] <;> ring

/-- Claim C5 counterexample record: an unknown-date withdrawal of 10. -/
def noDateTxn : Txn :=
  ⟨none, some "Cash Deposit", 10, 0, 0⟩

/-- Claim C5 counterexample: a set whose only record has an unknown date gets
an empty monthly summary — there is no bucket at all, so its withdrawal 10 is
in no monthly total even though the overall debit total counts it. -/
theorem monthly_excludes_unknown_cex :
    monthlySummary [noDateTxn] = [] ∧ noDateTxn.withdrawals = 10 ∧
      totalDebit [noDateTxn] = 10 ∧
      ((monthlySummary [noDateTxn]).map (fun e => e.2.1)).sum = 0 := by
  refine ⟨by with_unfolding_all rfl, by with_unfolding_all rfl,
    by with_unfolding_all rfl, by with_unfolding_all rfl⟩

/-- Claim C5 amended: unknown-date records are silently dropped from the
monthly summary (`groupby` discards the null month key), while the overall
debit and credit totals still include them. -/
theorem monthlySummary_drops_unknown (ts : List Txn) :
    monthlySummary ts = monthlySummary (ts.filter hasDate) ∧
    totalDebit ts =
      totalDebit (ts.filter hasDate) + totalDebit (ts.filter (fun t => !hasDate t)) ∧
    totalCredit ts =
      totalCredit (ts.filter hasDate) + totalCredit (ts.filter (fun t => !hasDate t)) := by
  refine ⟨?_, sum_filter_split Txn.withdrawals hasDate ts,
    sum_filter_split Txn.deposits hasDate ts⟩
  unfold monthlySummary
  have hkeys : monthKeys (ts.filter hasDate) = monthKeys ts := by
    unfold monthKeys
    rw [filterMap_monthOf_filter_hasDate]
  rw [hkeys]
  apply List.map_congr_left
  intro mo _
  unfold monthlyW monthlyD
  rw [filter_month_of_filter_hasDate]

/-- Pointwise-equal functions have equal map-sums. -/
theorem sum_map_congr :
    ∀ (K : List String) (f g : String → ℚ), (∀ k ∈ K, f k = g k) →
      (K.map f).sum = (K.map g).sum
  | [], _, _, _ => rfl
  | a :: K, f, g, h => by
    simp only [List.map_cons, List.sum_cons]
    rw [h a (List.mem_cons_self a K),
      sum_map_congr K f g (fun k hk => h k (List.mem_cons_of_mem a hk))]

/-- The zero function has zero map-sum. -/
theorem sum_map_zero (K : List String) : (K.map (fun _ => (0 : ℚ))).sum = 0 := by
  induction K with
  | nil => rfl
  | cons a K ih => simp [ih]

/-- A map-sum of pointwise additions splits into two map-sums. -/
theorem sum_map_add_split (K : List String) (f g : String → ℚ) :
    (K.map (fun k => f k + g k)).sum = (K.map f).sum + (K.map g).sum := by
  induction K with
  | nil => simp
  | cons a K ih =>
    simp only [List.map_cons, List.sum_cons, ih]
    ring

/-- An indicator map-sum over a list missing the marked key is zero. -/
theorem sum_indicator_not_mem (k0 : String) (c : ℚ) :
    ∀ K : List String, k0 ∉ K →
      (K.map (fun k => if k0 = k then c else 0)).sum = 0
  | [], _ => rfl
  | a :: K, h => by
    have hna : k0 ≠ a := fun e => h (by rw [e]; exact List.mem_cons_self a K)
    have hnK : k0 ∉ K := fun hk => h (List.mem_cons_of_mem a hk)
    simp only [List.map_cons, List.sum_cons]
    rw [if_neg hna, sum_indicator_not_mem k0 c K hnK, add_zero]

/-- An indicator map-sum over a duplicate-free list containing the marked key
once is the marked value. -/
theorem sum_indicator_mem (k0 : String) (c : ℚ) :
    ∀ K : List String, K.Nodup → k0 ∈ K →
      (K.map (fun k => if k0 = k then c else 0)).sum = c
  | [], _, hm => absurd hm (List.not_mem_nil k0)
  | a :: K, hnd, hm => by
    obtain ⟨hna, hndK⟩ := List.nodup_cons.mp hnd
    simp only [List.map_cons, List.sum_cons]
    rcases List.mem_cons.mp hm with he | hK
    · rw [if_pos he, sum_indicator_not_mem k0 c K (fun hk => hna (he ▸ hk)), add_zero]
    · have hne : k0 ≠ a := fun e => hna (e ▸ hK)
      rw [if_neg hne, sum_indicator_mem k0 c K hndK hK, zero_add]

/-- Summing the per-key group sums over any duplicate-free key list covering
all month keys of the records equals the sum over the records with a non-null
month key. -/
theorem group_sum (w : Txn → ℚ) (K : List String) (hnd : K.Nodup) :
    ∀ ts : List Txn, (∀ t ∈ ts, ∀ mo, monthOf t = some mo → mo ∈ K) →
      (K.map (fun mo => ((ts.filter (fun s => monthOf s = some mo)).map w).sum)).sum =
        ((ts.filter (fun s => (monthOf s).isSome)).map w).sum
  | [], _ => by
    have h0 : ∀ mo ∈ K,
        ((([] : List Txn).filter (fun s => monthOf s = some mo)).map w).sum = (0 : ℚ) :=
      fun _ _ => rfl
    rw [sum_map_congr K
      (fun mo => ((([] : List Txn).filter (fun s => monthOf s = some mo)).map w).sum)
      (fun _ => (0 : ℚ)) h0, sum_map_zero]
    rfl
  | t :: ts, hcov => by
    have ih := group_sum w K hnd ts
      (fun s hs mo hmo => hcov s (List.mem_cons_of_mem t hs) mo hmo)
    have hstep : ∀ mo ∈ K,
        (((t :: ts).filter (fun s => monthOf s = some mo)).map w).sum =
          (if monthOf t = some mo then w t else 0) +
            ((ts.filter (fun s => monthOf s = some mo)).map w).sum := by
      intro mo _
      rw [List.filter_cons]
      by_cases hmo : monthOf t = some mo
      · simp [hmo]
      · simp [hmo]
    rw [sum_map_congr K _ _ hstep, sum_map_add_split, ih, List.filter_cons]
    cases hmo : monthOf t with
    | none =>
      have hz : ∀ mo ∈ K, (if (none : Option String) = some mo then w t else 0) = (0 : ℚ) :=
        fun mo _ => if_neg (fun h => Option.noConfusion h)
      rw [sum_map_congr K _ _ hz, sum_map_zero, zero_add]
      simp
    | some k0 =>
      have hm : k0 ∈ K := hcov t (List.mem_cons_self t ts) k0 hmo
      have hinj : ∀ mo ∈ K,
          (if (some k0 : Option String) = some mo then w t else 0) =
            (if k0 = mo then w t else 0) :=
        fun mo _ => if_congr ⟨fun h => Option.some.inj h, fun h => by rw [h]⟩ rfl rfl
      rw [sum_map_congr K _ _ hinj, sum_indicator_mem k0 (w t) K hnd hm]
      simp

/-- Claim C6 amended, proved: when every record's date parsed, the monthly
withdrawal totals sum to the overall withdrawal total, and likewise for
deposits. -/
theorem monthly_sums_match_totals_of_dates_known (ts : List Txn)
    (h : ∀ t ∈ ts, hasDate t = true) :
    ((monthlySummary ts).map (fun e => e.2.1)).sum = totalDebit ts ∧
    ((monthlySummary ts).map (fun e => e.2.2)).sum = totalCredit ts := by
  have hnd : (monthKeys ts).Nodup :=
    ((List.perm_insertionSort strLE ((ts.filterMap monthOf).dedup)).symm).nodup
      (List.nodup_dedup (ts.filterMap monthOf))
  have hcov : ∀ t ∈ ts, ∀ mo, monthOf t = some mo → mo ∈ monthKeys ts := by
    intro t ht mo hmo
    have h1 : mo ∈ (ts.filterMap monthOf).dedup :=
      List.mem_dedup.mpr (List.mem_filterMap.mpr ⟨t, ht, hmo⟩)
    exact ((List.perm_insertionSort strLE ((ts.filterMap monthOf).dedup)).mem_iff).mpr h1
  have hfull : ts.filter (fun s => (monthOf s).isSome) = ts := by
    rw [List.filter_eq_self]
    intro s hs
    rw [monthOf_isSome_eq_hasDate]
    exact h s hs
  constructor
  · have hg := group_sum Txn.withdrawals (monthKeys ts) hnd ts hcov
    rw [hfull] at hg
    unfold monthlySummary
    rw [List.map_map]
    exact hg
  · have hg := group_sum Txn.deposits (monthKeys ts) hnd ts hcov
    rw [hfull] at hg
    unfold monthlySummary
    rw [List.map_map]
    exact hg

/-- Claim C6 witness record: a single dated transaction. -/
def knownTxnW : Txn :=
  ⟨some ⟨2023, 2, 1⟩, some "Salary Credit", 3, 4, 5⟩

/-- Claim C6 witness: the amended aggregation identity at a concrete one-record
set whose date is known. -/
theorem monthly_sums_match_totals_witness :
    ((monthlySummary [knownTxnW]).map (fun e => e.2.1)).sum = totalDebit [knownTxnW] ∧
    ((monthlySummary [knownTxnW]).map (fun e => e.2.2)).sum = totalCredit [knownTxnW] :=
  monthly_sums_match_totals_of_dates_known [knownTxnW] (by decide)

/-- Claim C6 counterexample record: an unknown-date withdrawal of 7. -/
def noDateTxn2 : Txn :=
  ⟨none, some "ATM WDL", 7, 0, 0⟩

/-- Claim C6 counterexample: with one unknown-date record the monthly
withdrawal totals sum to 0 while the overall withdrawal total is 7. -/
theorem monthly_total_mismatch_cex :
    ((monthlySummary [noDateTxn2]).map (fun e => e.2.1)).sum = 0 ∧
      totalDebit [noDateTxn2] = 7 ∧ ((0 : ℚ) ≠ 7) := by
  refine ⟨by with_unfolding_all rfl, by with_unfolding_all rfl,
    by with_unfolding_all decide⟩
